import Mathlib

/-!
Verification of the wayline table/command engine.

Rust strings (`&str`) are embedded as lists of characters (`RStr`); Rust
`u32` values as `Nat` with explicit reduction modulo `2 ^ 32` where the
source can overflow.  The pseudo-random source is an explicit stream
`rng : Nat → Nat`, draw `i` consuming `rng i`; `rand`'s
`random_range lo..=hi` is modelled as a uniform pick in the inclusive
range when it is nonempty and as a panic (`none`) when it is empty,
which is what the `rand` crate does.
-/

abbrev RStr := List Char

/-- Embeds Rust `str::split(sep)`: `""` yields `[""]`, a separator at either
end yields an empty piece there. -/
def splitOnChar (sep : Char) : RStr → List RStr
  | [] => [[]]
  | c :: rest =>
    match splitOnChar sep rest with
    | [] => [[]]
    | h :: t => if c = sep then [] :: h :: t else (c :: h) :: t

/-- Embeds Rust `str::split_whitespace`: split on runs of whitespace,
dropping empty pieces.  `acc` holds the current word reversed. -/
def splitWsAux (acc : RStr) : RStr → List RStr
  | [] => if acc = [] then [] else [acc.reverse]
  | c :: rest =>
    if c.isWhitespace then
      if acc = [] then splitWsAux [] rest
      else acc.reverse :: splitWsAux [] rest
    else splitWsAux (c :: acc) rest

def splitWhitespace (s : RStr) : List RStr := splitWsAux [] s

/-- Embeds Rust `str::to_lowercase` (the inputs of interest are ASCII). -/
def lowerStr (s : RStr) : RStr := s.map Char.toLower

/-- Embeds `Vec::join(" ")`. -/
def joinSpace (ls : List RStr) : RStr := List.intercalate [' '] ls

def digitsToNat (s : RStr) : Nat :=
  s.foldl (fun acc c => acc * 10 + (c.toNat - '0'.toNat)) 0

/-- Embeds Rust `u32::from_str`: an optional leading `+`, then one or more
ASCII digits, and the value must fit in a `u32`. -/
def parseU32 (s : RStr) : Option Nat :=
  let body : RStr := match s with
    | '+' :: rest => rest
    | other => other
  if body ≠ [] ∧ body.all Char.isDigit then
    let v := digitsToNat body
    if v < 2 ^ 32 then some v else none
  else none

/-- Embeds `enum Command` from `src/command.rs`. -/
inductive Command where
  | RollTable : Option RStr → Command
  | RollDice : RStr → Command
  | List : Option RStr → Command
  | Time : Command
  | Add : Nat → Command
  | Use : RStr → Command
  | Help : Command
  | Unknown : RStr → Command
deriving DecidableEq

/-- The `match parts[0].to_lowercase().as_str()` body of `parse_command`,
factored out; `p0 :: rest` is the nonempty token list, `input` the raw
line (used by the `Unknown` fallbacks). -/
def parseBody (input p0 : RStr) (rest : List RStr) : Command :=
  if lowerStr p0 = "roll".toList then
    match rest with
    | [] => Command.RollTable none
    | _ :: _ => Command.RollTable (some (lowerStr (joinSpace rest)))
  else if lowerStr p0 = "list".toList then
    match rest with
    | [] => Command.List none
    | _ :: _ => Command.List (some (lowerStr (joinSpace rest)))
  else if lowerStr p0 = "time".toList then Command.Time
  else if lowerStr p0 = "use".toList then
    Command.Use (if rest.length ≥ 1 then lowerStr (joinSpace rest) else [])
  else if lowerStr p0 = "dice".toList then
    match rest with
    | [d] => Command.RollDice d
    | _ => Command.Unknown input
  else if lowerStr p0 = "add".toList then
    match rest with
    | [a] =>
      match parseU32 a with
      | some minutes => Command.Add minutes
      | none => Command.Unknown input
    | _ => Command.Unknown input
  else if lowerStr p0 = "help".toList then Command.Help
  else Command.Unknown input

/-- Embeds `parse_command` from `src/command.rs`. -/
def parse_command (input : RStr) : Command :=
  match splitWhitespace input with
  | [] => Command.Unknown input
  | p0 :: rest => parseBody input p0 rest

/-- Embeds `rand::Rng::random_range(lo..=hi)` given the stream value `v`:
a uniform pick in the nonempty inclusive range, a panic (`none`) on an
empty range — the `rand` crate panics there. -/
def randomRange (lo hi v : Nat) : Option Nat :=
  if lo ≤ hi then some (lo + v % (hi + 1 - lo)) else none

/-- Outcome of `api::roll`: an ordinary return (`ok`) or a process panic. -/
inductive RollOutcome where
  | ok : Option Nat → RollOutcome
  | panicked : RollOutcome
deriving DecidableEq

/-- The `for _ in 0..number_of_dice` loop of `api::roll`: `k` iterations
remain, draw number `i` consumes `rng i`, and the `u32` accumulator wraps
modulo `2 ^ 32` (release-mode semantics of `total_roll += roll`). -/
def rollLoop (m : Nat) (rng : Nat → Nat) : Nat → Nat → Nat → Option Nat
  | _, acc, 0 => some acc
  | i, acc, k + 1 =>
    match randomRange 1 m (rng i) with
    | none => none
    | some d => rollLoop m rng (i + 1) ((acc + d) % 2 ^ 32) k

/-- Embeds `api::roll` from `src/api.rs`. -/
def roll (dice : RStr) (rng : Nat → Nat) : RollOutcome :=
  match splitOnChar 'd' dice with
  | [p0, p1] =>
    match parseU32 p0, parseU32 p1 with
    | some n, some m =>
      match rollLoop m rng 0 0 n with
      | none => RollOutcome.panicked
      | some total => RollOutcome.ok (some total)
    | _, _ => RollOutcome.ok none
  | _ => RollOutcome.ok none

/-- Embeds `struct Entry` from `src/table.rs`. -/
structure Entry where
  name : RStr
  numbers : List Nat
deriving DecidableEq

/-- Embeds `struct Table` from `src/table.rs`. -/
structure Table where
  name : RStr
  rows : List Entry
  roll : RStr
deriving DecidableEq

/-- The scan loop of `api::roll_on`: first entry whose `numbers` contain
the roll value. -/
def findEntry (rows : List Entry) (v : Nat) : Option Entry :=
  rows.find? (fun e => e.numbers.contains v)

/-- Embeds `api::roll_on` from `src/api.rs`; `none` models a panic
propagating out of `roll`. -/
def roll_on (t : Table) (dice : RStr) (rng : Nat → Nat) :
    Option (Nat × Option Entry) :=
  match roll dice rng with
  | RollOutcome.panicked => none
  | RollOutcome.ok r =>
    let total := r.getD 0
    some (total, findEntry t.rows total)

/-- The session state of `struct Wayline` in `src/main.rs`, restricted to
the core fields (the scrollback/input rendering is the excluded front
end); `tables` is the name-keyed map, modelled as an association list. -/
structure Session where
  tables : List (RStr × Table)
  current_table : Option RStr
  current_time_minutes : Nat
deriving DecidableEq

def lookupTable (ts : List (RStr × Table)) (key : RStr) : Option Table :=
  (ts.find? (fun kv => kv.1 = key)).map Prod.snd

/-- Embeds `Wayline::add_minutes`: `current_time_minutes += minutes` on a
`u32`, wrapping modulo `2 ^ 32` (release-mode semantics). -/
def add_minutes (s : Session) (minutes : Nat) : Session :=
  { s with current_time_minutes := (s.current_time_minutes + minutes) % 2 ^ 32 }

/-- Embeds the state effect of the dispatch in `Wayline::on_enter_pressed`:
only `Add` touches the clock and only `Use` touches the selection; the
other arms write output lines only. -/
def dispatchCmd (s : Session) (c : Command) : Session :=
  match c with
  | Command.Add minutes => add_minutes s minutes
  | Command.Use name =>
    if (lookupTable s.tables name).isSome then
      { s with current_table := some name }
    else s
  | _ => s

/-- A structured TOML-like value tree (strings, integers, arrays, and
key/value tables), the target of serialization. -/
inductive TomlValue where
  | str : RStr → TomlValue
  | num : Nat → TomlValue
  | arr : List TomlValue → TomlValue
  | tbl : List (RStr × TomlValue) → TomlValue

def tomlGet (fields : List (RStr × TomlValue)) (key : RStr) : Option TomlValue :=
  (fields.find? (fun kv => kv.1 = key)).map Prod.snd

/-- Modelled from the spec: the serde `Serialize` derive on `Entry`
(the serializer itself is the external `toml` crate, absent from `src/`);
per §6 an entry serializes to `{name: string, numbers: sequence of
unsigned integer}`. -/
def serializeEntry (e : Entry) : TomlValue :=
  TomlValue.tbl
    [("name".toList, TomlValue.str e.name),
     ("numbers".toList, TomlValue.arr (e.numbers.map TomlValue.num))]

/-- Modelled from the spec: the serde `Serialize` derive on `Table`;
per §6 a table serializes to fields `name: string`, `roll: string`,
`rows: sequence of entries`. -/
def serializeTable (t : Table) : TomlValue :=
  TomlValue.tbl
    [("name".toList, TomlValue.str t.name),
     ("rows".toList, TomlValue.arr (t.rows.map serializeEntry)),
     ("roll".toList, TomlValue.str t.roll)]

def deserializeNum : TomlValue → Option Nat
  | TomlValue.num n => some n
  | _ => none

/-- Deserialize each element of a sequence, failing if any element
fails. -/
def mapOption {A B : Type} (f : A → Option B) : List A → Option (List B)
  | [] => some []
  | a :: rest =>
    match f a, mapOption f rest with
    | some b, some bs => some (b :: bs)
    | _, _ => none

/-- Modelled from the spec: the serde `Deserialize` derive on `Entry` —
required fields `name` (string) and `numbers` (sequence of unsigned
integers), failing when a field is missing or has the wrong shape. -/
def deserializeEntry : TomlValue → Option Entry
  | TomlValue.tbl fields =>
    match tomlGet fields "name".toList, tomlGet fields "numbers".toList with
    | some (TomlValue.str n), some (TomlValue.arr vs) =>
      match mapOption deserializeNum vs with
      | some nums => some { name := n, numbers := nums }
      | none => none
    | _, _ => none
  | _ => none

/-- Modelled from the spec: the serde `Deserialize` derive on `Table` —
required fields `name` (string), `rows` (sequence of entries) and `roll`
(string). -/
def deserializeTable : TomlValue → Option Table
  | TomlValue.tbl fields =>
    match tomlGet fields "name".toList, tomlGet fields "rows".toList,
        tomlGet fields "roll".toList with
    | some (TomlValue.str n), some (TomlValue.arr rs), some (TomlValue.str r) =>
      match mapOption deserializeEntry rs with
      | some rows => some { name := n, rows := rows, roll := r }
      | none => none
    | _, _, _ => none
  | _ => none

/-- The spec's grammar (§4.2) for a dice integer part: a nonempty string
of base-10 digits, nothing else.  This follows the spec's words, for
comparison against the source's `parseU32`. -/
def specNumeral (s : RStr) : Bool := !s.isEmpty && s.all Char.isDigit

/-- The malformed shapes enumerated by the claim, following the spec's
words: no `d` separator or more than one `d` (which also covers the
empty string), or a split into two parts of which one is empty or
non-numeric. -/
def specMalformed (s : RStr) : Prop :=
  s.count 'd' ≠ 1
  ∨ ∃ p0 p1, splitOnChar 'd' s = [p0, p1]
      ∧ (specNumeral p0 = false ∨ specNumeral p1 = false)

/-- The amended malformedness notion: as `specMalformed`, but a part
counts as numeric exactly when Rust `u32` parsing accepts it — an
optional leading `+` is tolerated and an out-of-`u32`-range value is
rejected. -/
def malformedAmended (s : RStr) : Prop :=
  s.count 'd' ≠ 1
  ∨ ∃ p0 p1, splitOnChar 'd' s = [p0, p1]
      ∧ (parseU32 p0 = none ∨ parseU32 p1 = none)

/-! ### Helper lemmas -/

/-- `List.find?` characterized as a first-match scan: a `some` answer
splits the list at the first satisfying element. -/
theorem find?_first_match {α : Type} (p : α → Bool) (l : List α) (a : α)
    (h : l.find? p = some a) :
    p a = true ∧ ∃ l1 l2, l = l1 ++ a :: l2 ∧ ∀ x ∈ l1, p x = false := by
  induction l with
  | nil => simp [List.find?] at h
  | cons b t ih =>
    by_cases hb : p b = true
    · rw [List.find?_cons_of_pos _ hb] at h
      cases h
      exact ⟨hb, [], t, rfl, by simp⟩
    · rw [List.find?_cons_of_neg _ hb] at h
      obtain ⟨hpa, l1, l2, rfl, hall⟩ := ih h
      refine ⟨hpa, b :: l1, l2, rfl, ?_⟩
      intro x hx
      rcases List.mem_cons.mp hx with rfl | hx
      · exact Bool.eq_false_iff.mpr hb
      · exact hall x hx

theorem parse_command_nil (input : RStr) (h : splitWhitespace input = []) :
    parse_command input = Command.Unknown input := by
  unfold parse_command
  rw [h]

theorem parse_command_cons (input p0 : RStr) (rest : List RStr)
    (h : splitWhitespace input = p0 :: rest) :
    parse_command input = parseBody input p0 rest := by
  unfold parse_command
  rw [h]

/-- C1 — counterexample: on the bare input `"use"` the parser returns the
`Use` command with an empty target, not `Unknown`. -/
theorem c1_counterexample : parse_command "use".toList = Command.Use [] := by
  decide

/-- C1 (amended) — for every input line whose sole whitespace-separated
token is (case-insensitively) `use`, the parser returns `Use ""` (a `Use`
command with the empty target name), not `Unknown`. -/
theorem c1_use_empty (input t : RStr) (hsw : splitWhitespace input = [t])
    (hlow : lowerStr t = "use".toList) :
    parse_command input = Command.Use [] := by
  rw [parse_command_cons input t [] hsw]
  unfold parseBody
  rw [hlow]
  rfl

/-- C1 — witness for the amended theorem at the bare input `"use"`. -/
theorem c1_use_empty_witness : parse_command "use".toList = Command.Use [] :=
  c1_use_empty "use".toList "use".toList (by decide) (by decide)

/-- C2 — the code violates the claim: on `"1d0"` (count 1, sides 0) the
dice evaluator calls `random_range` on the empty range `1..=0`, which
panics, for every state of the random source. -/
theorem c2_sides_zero_panics (rng : Nat → Nat) :
    roll "1d0".toList rng = RollOutcome.panicked := by
  rfl

/-- C10 — for every input line whose first token is (case-insensitively)
`time` the parser returns `Time`, and likewise `help` returns `Help`,
whatever trailing tokens follow. -/
theorem c10_time_help_trailing (input p0 : RStr) (rest : List RStr)
    (hsw : splitWhitespace input = p0 :: rest) :
    (lowerStr p0 = "time".toList → parse_command input = Command.Time)
    ∧ (lowerStr p0 = "help".toList → parse_command input = Command.Help) := by
  rw [parse_command_cons input p0 rest hsw]
  unfold parseBody
  constructor <;> intro hlow <;> rw [hlow]
  · rw [if_neg (by decide), if_neg (by decide), if_pos rfl]
  · rw [if_neg (by decide), if_neg (by decide), if_neg (by decide),
      if_neg (by decide), if_neg (by decide), if_neg (by decide), if_pos rfl]

/-- C10 — witness: `"time and more"` parses to `Time`, `"HELP now"` (mixed
case, one trailing token) parses to `Help`. -/
theorem c10_time_help_trailing_witness :
    parse_command "time and more".toList = Command.Time
    ∧ parse_command "HELP now".toList = Command.Help :=
  ⟨(c10_time_help_trailing "time and more".toList "time".toList
      ["and".toList, "more".toList] (by decide)).1 (by decide),
   (c10_time_help_trailing "HELP now".toList "HELP".toList
      ["now".toList] (by decide)).2 (by decide)⟩

/-- Every `Unknown` produced by `parseBody` carries the raw input. -/
theorem parseBody_unknown (input p0 : RStr) (rest : List RStr) (t : RStr)
    (h : parseBody input p0 rest = Command.Unknown t) : t = input := by
  unfold parseBody at h
  split_ifs at h <;>
    first
      | exact Command.noConfusion h
      | (exact (Command.Unknown.inj h).symm)
      | (split at h <;>
          first
            | exact Command.noConfusion h
            | exact (Command.Unknown.inj h).symm
            | (split at h <;>
                first
                  | exact Command.noConfusion h
                  | exact (Command.Unknown.inj h).symm))

/-- C7 — counterexample: on the input `" q"` (leading space, unrecognized
token) the parser returns `Unknown` carrying the raw, untrimmed input
`" q"`, not the trimmed `"q"` the claim promises. -/
theorem c7_counterexample :
    parse_command " q".toList = Command.Unknown " q".toList
    ∧ (" q".toList : RStr) ≠ "q".toList := by
  decide

/-- C7 (amended) — the parser is total by construction; the spec's literal
examples map exactly as stated; and every `Unknown` result carries the
original input verbatim (not trimmed). -/
theorem c7_total_examples :
    parse_command "roll".toList = Command.RollTable none
    ∧ parse_command "roll wild caves".toList
        = Command.RollTable (some "wild caves".toList)
    ∧ parse_command "dice 2d6".toList = Command.RollDice "2d6".toList
    ∧ parse_command "dice 2d6 extra".toList
        = Command.Unknown "dice 2d6 extra".toList
    ∧ parse_command "add 15".toList = Command.Add 15
    ∧ parse_command "add abc".toList = Command.Unknown "add abc".toList
    ∧ parse_command ([] : RStr) = Command.Unknown []
    ∧ ∀ input t, parse_command input = Command.Unknown t → t = input := by
  refine ⟨by decide, by decide, by decide, by decide, by decide, by decide,
    by decide, ?_⟩
  intro input t h
  unfold parse_command at h
  split at h
  · exact (Command.Unknown.inj h).symm
  · exact parseBody_unknown _ _ _ _ h

/-- C7 — witness for the hypothesis-bearing part of the amended theorem,
at the concrete unrecognized input `" q"`. -/
theorem c7_total_examples_witness : (" q".toList : RStr) = " q".toList :=
  c7_total_examples.2.2.2.2.2.2.2 " q".toList " q".toList (by decide)

/-- Reduction of `roll` once the split and the two integer parses are
known. -/
theorem roll_eval (dice p0 p1 : RStr) (n m : Nat) (rng : Nat → Nat)
    (hsplit : splitOnChar 'd' dice = [p0, p1])
    (hn : parseU32 p0 = some n) (hm : parseU32 p1 = some m) :
    roll dice rng
      = match rollLoop m rng 0 0 n with
        | none => RollOutcome.panicked
        | some total => RollOutcome.ok (some total) := by
  unfold roll
  rw [hsplit]
  simp only [hn, hm]

/-- The roll loop with a positive die: provided the true sum cannot reach
`2 ^ 32`, it never panics and its total stays within
`[acc + k, acc + k * m]`. -/
theorem rollLoop_bounds (m : Nat) (rng : Nat → Nat) (hm : 1 ≤ m) :
    ∀ (k i acc : Nat), acc + k * m < 2 ^ 32 →
      ∃ total, rollLoop m rng i acc k = some total
        ∧ acc + k ≤ total ∧ total ≤ acc + k * m := by
  intro k
  induction k with
  | zero => intro i acc _; exact ⟨acc, rfl, by omega, by omega⟩
  | succ k ih =>
    intro i acc hlt
    have hd1 : 1 ≤ 1 + rng i % m := Nat.le_add_right 1 _
    have hdm : 1 + rng i % m ≤ m := by
      have := Nat.mod_lt (rng i) (show 0 < m by omega)
      omega
    have hstep : randomRange 1 m (rng i) = some (1 + rng i % m) := by
      unfold randomRange
      rw [if_pos hm, Nat.add_sub_cancel]
    have hacc : (acc + (1 + rng i % m)) % 2 ^ 32 = acc + (1 + rng i % m) := by
      apply Nat.mod_eq_of_lt
      have : acc + (k + 1) * m < 2 ^ 32 := hlt
      nlinarith
    have hrec : acc + (1 + rng i % m) + k * m < 2 ^ 32 := by nlinarith
    obtain ⟨total, heq, hlo, hhi⟩ := ih (i + 1) (acc + (1 + rng i % m)) hrec
    refine ⟨total, ?_, by omega, by nlinarith⟩
    unfold rollLoop
    rw [hstep]
    show rollLoop m rng (i + 1) ((acc + (1 + rng i % m)) % 2 ^ 32) k
      = some total
    rw [hacc]
    exact heq

/-- C3 (amended) — for every well-formed `<n>d<m>` with `m ≥ 1` whose true
sum cannot overflow the `u32` accumulator (`n * m < 2 ^ 32`), the evaluator
succeeds with a value in `[n, n * m]`; and with `n = 0` it returns exactly
`0` for every state of the random source (no draw is consumed). -/
theorem c3_range (dice p0 p1 : RStr) (n m : Nat) (rng : Nat → Nat)
    (hsplit : splitOnChar 'd' dice = [p0, p1])
    (hn : parseU32 p0 = some n) (hm : parseU32 p1 = some m)
    (hm1 : 1 ≤ m) (hnm : n * m < 2 ^ 32) :
    (∃ total, roll dice rng = RollOutcome.ok (some total)
      ∧ n ≤ total ∧ total ≤ n * m)
    ∧ (n = 0 → roll dice rng = RollOutcome.ok (some 0)) := by
  constructor
  · obtain ⟨total, heq, hlo, hhi⟩ :=
      rollLoop_bounds m rng hm1 n 0 0 (by omega)
    refine ⟨total, ?_, by omega, by omega⟩
    rw [roll_eval dice p0 p1 n m rng hsplit hn hm, heq]
  · intro h0
    subst h0
    rw [roll_eval dice p0 p1 0 m rng hsplit hn hm]
    rfl

/-- C3 — witness for the amended theorem at `"2d6"` with an all-zeros
random stream. -/
theorem c3_range_witness :
    (∃ total, roll "2d6".toList (fun _ => 0) = RollOutcome.ok (some total)
      ∧ 2 ≤ total ∧ total ≤ 2 * 6)
    ∧ (2 = 0 → roll "2d6".toList (fun _ => 0) = RollOutcome.ok (some 0)) :=
  c3_range "2d6".toList "2".toList "6".toList 2 6 (fun _ => 0)
    (by decide) (by decide) (by decide) (by decide) (by norm_num)

/-- The roll loop on a 2-sided die with the random stream constantly `1`
draws `2` every time, so the wrapped total is `(acc + 2 * k) % 2 ^ 32`. -/
theorem rollLoop_allTwos : ∀ (k i acc : Nat), acc < 2 ^ 32 →
    rollLoop 2 (fun _ => 1) i acc k = some ((acc + 2 * k) % 2 ^ 32) := by
  intro k
  induction k with
  | zero =>
    intro i acc hacc
    show some acc = some ((acc + 2 * 0) % 2 ^ 32)
    rw [Nat.mul_zero, Nat.add_zero, Nat.mod_eq_of_lt hacc]
  | succ k ih =>
    intro i acc _
    show rollLoop 2 (fun _ => 1) (i + 1) ((acc + 2) % 2 ^ 32) k
      = some ((acc + 2 * (k + 1)) % 2 ^ 32)
    rw [ih (i + 1) ((acc + 2) % 2 ^ 32) (Nat.mod_lt _ (by norm_num))]
    congr 1
    rw [Nat.mod_add_mod]
    congr 1
    omega

/-- C3 — counterexample: on `"4294967295d2"` with a random stream that
always draws the maximum face `2`, the `u32` total wraps and the evaluator
returns `4294967294`, which is strictly below the count `n = 4294967295`,
outside the claimed range `[n, n*m]`. -/
theorem c3_counterexample :
    roll "4294967295d2".toList (fun _ => 1) = RollOutcome.ok (some 4294967294)
    ∧ 4294967294 < 4294967295 := by
  refine ⟨?_, by norm_num⟩
  rw [roll_eval "4294967295d2".toList "4294967295".toList "2".toList
      4294967295 2 (fun _ => 1) (by decide) (by decide) (by decide),
    rollLoop_allTwos 4294967295 0 0 (by norm_num)]
  norm_num

theorem splitOnChar_ne_nil (sep : Char) (s : RStr) : splitOnChar sep s ≠ [] := by
  cases s with
  | nil => simp [splitOnChar]
  | cons c rest =>
    unfold splitOnChar
    split
    · simp
    · split <;> simp

/-- The split has one more piece than the string has separators. -/
theorem splitOnChar_length (sep : Char) (s : RStr) :
    (splitOnChar sep s).length = s.count sep + 1 := by
  induction s with
  | nil => simp [splitOnChar]
  | cons c rest ih =>
    unfold splitOnChar
    rcases h : splitOnChar sep rest with _ | ⟨hd, tl⟩
    · exact absurd h (splitOnChar_ne_nil sep rest)
    · rw [h] at ih
      by_cases hc : c = sep <;>
        simp [hc, List.count_cons] <;> simp at ih <;> omega

/-- C4 (amended) — with "numeric part" meaning a part Rust `u32` parsing
accepts (optional leading `+`, value below `2 ^ 32`), every malformed
dice string makes the evaluator return `None`, never a numeric result. -/
theorem c4_malformed_none (s : RStr) (rng : Nat → Nat)
    (h : malformedAmended s) : roll s rng = RollOutcome.ok none := by
  rcases h with h | ⟨p0, p1, hsplit, hfail⟩
  · have hl : (splitOnChar 'd' s).length ≠ 2 := by
      rw [splitOnChar_length]
      omega
    unfold roll
    rcases hsp : splitOnChar 'd' s with _ | ⟨a, _ | ⟨b, _ | ⟨c, t⟩⟩⟩
    · rfl
    · rfl
    · rw [hsp] at hl
      simp at hl
    · rfl
  · unfold roll
    rw [hsplit]
    dsimp only
    rcases hfail with h0 | h1
    · rw [h0]
    · rw [h1]
      cases hp0 : parseU32 p0 <;> rfl

/-- C4 — witness for the amended theorem at `"2x3"` (no `d` separator). -/
theorem c4_malformed_none_witness :
    roll "2x3".toList (fun _ => 0) = RollOutcome.ok none :=
  c4_malformed_none "2x3".toList (fun _ => 0) (Or.inl (by decide))

/-- C4 — counterexample: `"+1d6"` is malformed per the claim (its count
part `"+1"` is not a base-10 numeral), yet the evaluator accepts it —
Rust `u32` parsing tolerates the leading `+` — and returns a numeric
result. -/
theorem c4_counterexample :
    specMalformed "+1d6".toList
    ∧ roll "+1d6".toList (fun _ => 1) = RollOutcome.ok (some 2) :=
  ⟨Or.inr ⟨"+1".toList, "6".toList, by decide, Or.inl (by decide)⟩, by decide⟩

/-- The scan predicate of `roll_on` is membership of the roll value. -/
theorem findEntry_pred_iff (e : Entry) (v : Nat) :
    e.numbers.contains v = true ↔ v ∈ e.numbers := by
  simp

/-- C5 — when dice evaluation fails (returns `None`), `roll_on` does not
propagate the error: it takes `0` as the roll value and still scans the
table, returning the first entry whose numbers contain `0`, or no entry
when none does. -/
theorem c5_dice_error_swallowed (t : Table) (dice : RStr) (rng : Nat → Nat)
    (h : roll dice rng = RollOutcome.ok none) :
    roll_on t dice rng = some (0, findEntry t.rows 0)
    ∧ (∀ e, findEntry t.rows 0 = some e →
        0 ∈ e.numbers
        ∧ ∃ l1 l2, t.rows = l1 ++ e :: l2 ∧ ∀ x ∈ l1, 0 ∉ x.numbers)
    ∧ (findEntry t.rows 0 = none → ∀ e ∈ t.rows, 0 ∉ e.numbers) := by
  refine ⟨?_, ?_, ?_⟩
  · unfold roll_on
    rw [h]
    rfl
  · intro e he
    obtain ⟨hp, l1, l2, hsplit, hall⟩ := find?_first_match _ _ _ he
    exact ⟨(findEntry_pred_iff e 0).mp hp, l1, l2, hsplit,
      fun x hx hv => by
        have hfalse := hall x hx
        rw [(findEntry_pred_iff x 0).mpr hv] at hfalse
        exact absurd hfalse (by decide)⟩
  · intro hnone e he hv
    have := List.find?_eq_none.mp hnone e he
    exact this ((findEntry_pred_iff e 0).mpr hv)

/-- C5 — witness: on a table whose first row claims `0` and the malformed
dice string `"xd"`, the resolver returns roll value `0` and that row. -/
theorem c5_dice_error_swallowed_witness :
    roll_on { name := "t".toList,
              rows := [{ name := "a".toList, numbers := [0, 1] }],
              roll := "xd".toList }
        "xd".toList (fun _ => 0)
      = some (0, findEntry [{ name := "a".toList, numbers := [0, 1] }] 0) :=
  (c5_dice_error_swallowed _ "xd".toList (fun _ => 0) (by decide)).1

/-- C6 — the resolver's scan is a first-match-in-row-order linear scan:
`none` exactly when no row's numbers contain the roll value (so always
`none` on empty rows), and a hit is the first matching row — every
earlier row misses, so an earlier claimant always beats a later one;
moreover on a successful dice evaluation `roll_on` pairs the rolled value
with exactly this scan's answer. -/
theorem c6_first_match (t : Table) (v : Nat) :
    (findEntry t.rows v = none ↔ ∀ e ∈ t.rows, v ∉ e.numbers)
    ∧ (∀ e, findEntry t.rows v = some e →
        v ∈ e.numbers
        ∧ ∃ l1 l2, t.rows = l1 ++ e :: l2 ∧ ∀ x ∈ l1, v ∉ x.numbers)
    ∧ (∀ dice rng w, roll dice rng = RollOutcome.ok (some w) →
        roll_on t dice rng = some (w, findEntry t.rows w)) := by
  refine ⟨?_, ?_, ?_⟩
  · rw [findEntry, List.find?_eq_none]
    constructor
    · intro h e he hv
      exact h e he ((findEntry_pred_iff e v).mpr hv)
    · intro h e he hc
      exact h e he ((findEntry_pred_iff e v).mp hc)
  · intro e he
    obtain ⟨hp, l1, l2, hsplit, hall⟩ := find?_first_match _ _ _ he
    exact ⟨(findEntry_pred_iff e v).mp hp, l1, l2, hsplit,
      fun x hx hv => by
        have hfalse := hall x hx
        rw [(findEntry_pred_iff x v).mpr hv] at hfalse
        exact absurd hfalse (by decide)⟩
  · intro dice rng w h
    unfold roll_on
    rw [h]
    rfl

/-- C6 — witness: overlap precedence on rows `[{a,[5]},{b,[5]}]` at roll
value `5`: the scan hits the first row, whose prefix of earlier rows is
empty. -/
theorem c6_first_match_witness :
    5 ∈ ({ name := "a".toList, numbers := [5] } : Entry).numbers
    ∧ ∃ l1 l2,
        ({ name := "t".toList,
           rows := [{ name := "a".toList, numbers := [5] },
                    { name := "b".toList, numbers := [5] }],
           roll := "1d6".toList } : Table).rows
          = l1 ++ ({ name := "a".toList, numbers := [5] } : Entry) :: l2
        ∧ ∀ x ∈ l1, 5 ∉ x.numbers :=
  (c6_first_match _ 5).2.1 _ (by decide)

/-- C8 — counterexample: at a session whose clock holds the maximal `u32`
value, `Add 2` wraps the clock around to `1`, strictly below its previous
value. -/
theorem c8_counterexample :
    (dispatchCmd
        { tables := [], current_table := none,
          current_time_minutes := 4294967295 }
        (Command.Add 2)).current_time_minutes = 1
    ∧ (1 : Nat) < 4294967295 := by
  decide

/-- C8 (amended) — as long as `Add m` does not overflow the `u32` clock
(`counter + m < 2 ^ 32`), dispatch leaves the clock non-decreasing — it
adds exactly `m` — and every command other than `Add` leaves the clock
unchanged. -/
theorem c8_time_monotone :
    (∀ (s : Session) (m : Nat), s.current_time_minutes + m < 2 ^ 32 →
      s.current_time_minutes
          ≤ (dispatchCmd s (Command.Add m)).current_time_minutes
      ∧ (dispatchCmd s (Command.Add m)).current_time_minutes
          = s.current_time_minutes + m)
    ∧ (∀ (s : Session) (c : Command), (∀ m, c ≠ Command.Add m) →
      (dispatchCmd s c).current_time_minutes = s.current_time_minutes) := by
  constructor
  · intro s m h
    have hred : (dispatchCmd s (Command.Add m)).current_time_minutes
        = (s.current_time_minutes + m) % 2 ^ 32 := rfl
    rw [hred, Nat.mod_eq_of_lt h]
    exact ⟨Nat.le_add_right _ _, rfl⟩
  · intro s c hc
    cases c <;> try rfl
    case Add m => exact absurd rfl (hc m)
    case Use name =>
      show (if (lookupTable s.tables name).isSome = true then
          { s with current_table := some name } else s).current_time_minutes
        = s.current_time_minutes
      split <;> rfl

/-- C8 — witness: a clock at `10` stays ≥ `10` under `Add 5`, and `Time`
leaves it untouched. -/
theorem c8_time_monotone_witness :
    10 ≤ (dispatchCmd
        { tables := [], current_table := none, current_time_minutes := 10 }
        (Command.Add 5)).current_time_minutes
    ∧ (dispatchCmd
        { tables := [], current_table := none, current_time_minutes := 10 }
        Command.Time).current_time_minutes = 10 :=
  ⟨(c8_time_monotone.1
      { tables := [], current_table := none, current_time_minutes := 10 }
      5 (by norm_num)).1,
   c8_time_monotone.2
      { tables := [], current_table := none, current_time_minutes := 10 }
      Command.Time (fun _ hm => Command.noConfusion hm)⟩

theorem mapOption_deserializeNum (ns : List Nat) :
    mapOption deserializeNum (ns.map TomlValue.num) = some ns := by
  induction ns with
  | nil => rfl
  | cons n t ih => simp [mapOption, ih, deserializeNum]

theorem deserializeEntry_serializeEntry (e : Entry) :
    deserializeEntry (serializeEntry e) = some e := by
  have h : deserializeEntry (serializeEntry e)
      = match mapOption deserializeNum (e.numbers.map TomlValue.num) with
        | some nums => some { name := e.name, numbers := nums }
        | none => none := rfl
  rw [h, mapOption_deserializeNum]

theorem mapOption_deserializeEntry (rows : List Entry) :
    mapOption deserializeEntry (rows.map serializeEntry) = some rows := by
  induction rows with
  | nil => rfl
  | cons e t ih => simp [mapOption, deserializeEntry_serializeEntry, ih]

/-- C9 — serializing a `Table` and deserializing the result yields a table
with identical `name`, identical `roll` string, and identical rows in the
same order. -/
theorem c9_round_trip (t : Table) :
    ∃ t2, deserializeTable (serializeTable t) = some t2
      ∧ t2.name = t.name ∧ t2.roll = t.roll ∧ t2.rows = t.rows := by
  have h : deserializeTable (serializeTable t)
      = match mapOption deserializeEntry (t.rows.map serializeEntry) with
        | some rows => some { name := t.name, rows := rows, roll := t.roll }
        | none => none := rfl
  rw [h, mapOption_deserializeEntry]
  exact ⟨t, rfl, rfl, rfl, rfl⟩

/-- C2 — witness: the panic at the concrete random stream that always
yields `0`. -/
theorem c2_sides_zero_panics_witness :
    roll "1d0".toList (fun _ => 0) = RollOutcome.panicked :=
  c2_sides_zero_panics (fun _ => 0)

/-- C9 — witness: the round trip at a concrete two-row table. -/
theorem c9_round_trip_witness :
    ∃ t2, deserializeTable (serializeTable
        { name := "Wilderness".toList,
          rows := [{ name := "Goblin".toList, numbers := [2, 3] },
                   { name := "Dragon".toList, numbers := [12] }],
          roll := "2d6".toList })
      = some t2
      ∧ t2.name = "Wilderness".toList ∧ t2.roll = "2d6".toList
      ∧ t2.rows = [{ name := "Goblin".toList, numbers := [2, 3] },
                   { name := "Dragon".toList, numbers := [12] }] :=
  c9_round_trip
    { name := "Wilderness".toList,
      rows := [{ name := "Goblin".toList, numbers := [2, 3] },
               { name := "Dragon".toList, numbers := [12] }],
      roll := "2d6".toList }
